import Mathlib

/-!
Shallow embedding of the extraction pipeline of `app/extract.py`
(medical_chatbot repository): meaningfulness decider, OCR wrappers,
PDF digital extraction with OCR fallback, the per-line numeric value
extractor (`safe_extract_value`), the field parser
(`parse_medical_fields`) and the batch processor (`process_files`).

Python strings are modelled as `List Char` (ASCII character classes),
Python floats as `ℚ`, raised exceptions as `Except`, and the external
libraries (PIL, pytesseract, pdf2image, pdfplumber, the clock and the
directory listing) as an explicit environment record of oracles.
-/

instance exceptDecEq {e : Type} {a : Type} [DecidableEq e] [DecidableEq a] :
    DecidableEq (Except e a) := fun x y =>
  match x, y with
  | Except.ok u, Except.ok v =>
    if h : u = v then isTrue (by rw [h]) else isFalse (by intro hc; cases hc; exact h rfl)
  | Except.error u, Except.error v =>
    if h : u = v then isTrue (by rw [h]) else isFalse (by intro hc; cases hc; exact h rfl)
  | Except.ok _, Except.error _ => isFalse (by intro hc; cases hc)
  | Except.error _, Except.ok _ => isFalse (by intro hc; cases hc)

/-! ## Character classes (ASCII model of Python `str` predicates) -/

/-- Model of Python regex `\d` (ASCII). -/
def isDigitChar (c : Char) : Bool := c.isDigit

/-- Model of a Python regex word character `\w` / the `\b` boundary class (ASCII). -/
def isWordChar (c : Char) : Bool := c.isAlphanum || c = '_'

/-- Model of Python regex `\s` and of `str.strip` whitespace (ASCII). -/
def isSpaceChar (c : Char) : Bool :=
  c = ' ' || c = '\t' || c = '\n' || c = '\r' || c = '\x0b' || c = '\x0c'

/-- The three dash characters accepted by the range regex `[-–—]`. -/
def isDashChar (c : Char) : Bool := c = '-' || c = '–' || c = '—'

/-- Model of Python `str.strip()`: drop whitespace from both ends. -/
def pyStrip (l : List Char) : List Char :=
  ((l.dropWhile isSpaceChar).reverse.dropWhile isSpaceChar).reverse

/-- Model of `sum(c.isalnum() for c in text)`. -/
def alnumCount (l : List Char) : Nat := (l.filter (fun c => c.isAlphanum)).length

/-! ## `is_text_extracted_meaningful`

Source:
`alnum_chars = sum(c.isalnum() for c in text)`
`return len(text.strip()) > threshold and (alnum_chars / len(text)) > ratio`

Python's `and` short-circuits, so the division is evaluated only when
the first conjunct holds; a division by zero would raise, which is
modelled by `Except.error ()`. -/

def is_text_extracted_meaningful (text : List Char) (threshold : Nat) (ratio : ℚ) :
    Except Unit Bool :=
  let alnum_chars := alnumCount text
  if (pyStrip text).length > threshold then
    if text.length = 0 then Except.error ()
    else Except.ok (decide (ratio < (alnum_chars : ℚ) / (text.length : ℚ)))
  else Except.ok false

/-! ## The decimal-number regexes of `safe_extract_value`

`matchCore l` models matching `\d{1,3}\.\d{1,2}` anchored at the start
of `l`, with Python's greedy backtracking semantics: a match exists iff
the maximal digit run `d` at the start has length 1..3 (a shorter
integer part is always followed by a digit, never by the required dot),
is followed by a dot and at least one digit; the fraction takes at most
two digits greedily. It returns the matched text and the remainder. -/

def headIsWord : List Char → Bool
  | [] => false
  | c :: _ => isWordChar c

def headIsDigit : List Char → Bool
  | [] => false
  | c :: _ => isDigitChar c

def matchCore (l : List Char) : Option (List Char × List Char) :=
  let d := l.takeWhile isDigitChar
  if d.length = 0 || 3 < d.length then none
  else
    match l.drop d.length with
    | [] => none
    | c :: rest2 =>
      if c = '.' then
        let f := rest2.takeWhile isDigitChar
        if f.length = 0 then none
        else some (d ++ '.' :: f.take 2, rest2.drop (f.take 2).length)
      else none

/-- Model of `re.findall(r"\d{1,3}\.\d{1,2}", line)`: non-overlapping
left-to-right matches. Fuel-indexed structural recursion; the fuel is
always at least the length of the remaining input, so with fuel
`line.length` it never truncates. -/
def findallAux : Nat → List Char → List (List Char)
  | 0, _ => []
  | _ + 1, [] => []
  | fuel + 1, c :: cs =>
    match matchCore (c :: cs) with
    | some (m, rest) => m :: findallAux fuel rest
    | none => findallAux fuel cs

def findallDecimals (line : List Char) : List (List Char) :=
  findallAux line.length line

/-- A `prev` character blocks a leading `\b` iff it is a word character. -/
def prevOk : Option Char → Bool
  | none => true
  | some c => !isWordChar c

/-- Match `\b(\d{1,3}\.\d{1,2})\b` at the start of `l` (the leading
boundary being checked by the caller). The trailing `\b` succeeds iff
the character right after the greedy core is not a word character:
backtracking the fraction to one digit only exposes another digit. -/
def boundedCoreAt (l : List Char) : Option (List Char) :=
  match matchCore l with
  | some (m, rest) => if headIsWord rest then none else some m
  | none => none

/-- Model of `re.search(r"\b(\d{1,3}\.\d{1,2})\b", line)`: leftmost
match, scanning with the previous character for the `\b` check. -/
def searchBoundedAux : Option Char → List Char → Option (List Char)
  | _, [] => none
  | prev, c :: cs =>
    match (if prevOk prev then boundedCoreAt (c :: cs) else none) with
    | some m => some m
    | none => searchBoundedAux (some c) cs

def firstBoundedDecimal (line : List Char) : Option (List Char) :=
  searchBoundedAux none line

/-- Match the range regex `\b(\d{1,3}\.\d{1,2})\s*[-–—]\s*(\d{1,3}\.\d{1,2})\b`
at the start of `l`: first number, optional whitespace, a dash, optional
whitespace, second number with trailing boundary. Backtracking inside
either number cannot create further matches (it only exposes digits where
a dash or a boundary is required), so greedy scanning is exact. -/
def rangeAt (l : List Char) : Bool :=
  match matchCore l with
  | some (_, rest) =>
    match rest.dropWhile isSpaceChar with
    | [] => false
    | c :: r2 =>
      if isDashChar c then
        match matchCore (r2.dropWhile isSpaceChar) with
        | some (_, rest2) => !headIsWord rest2
        | none => false
      else false
  | none => false

/-- Model of `re.search(r"\b(\d{1,3}\.\d{1,2})\s*[-–—]\s*(\d{1,3}\.\d{1,2})\b", line) is not None`. -/
def rangeSearchAux : Option Char → List Char → Bool
  | _, [] => false
  | prev, c :: cs => (prevOk prev && rangeAt (c :: cs)) || rangeSearchAux (some c) cs

def rangeSearch (line : List Char) : Bool := rangeSearchAux none line

/-- Match `[<>]=?\s*\d` with the `[<>]` character already consumed:
an optional `=` (greedy, and skipping it never helps since `=` is
neither whitespace nor a digit), whitespace, then a digit. -/
def ineqAfter (cs : List Char) : Bool :=
  let r := match cs with
    | '=' :: t => t
    | _ => cs
  headIsDigit (r.dropWhile isSpaceChar)

/-- Model of `re.search(r"[<>]=?\s*\d", line) is not None`. -/
def ineqSearch : List Char → Bool
  | [] => false
  | c :: cs => ((c = '<' || c = '>') && ineqAfter cs) || ineqSearch cs

/-! ## `safe_extract_value` -/

/-- Source: reject a line with an inequality pattern; reject it when a
reference range is present and the line holds at most two decimal
numbers; otherwise return the first word-bounded decimal match. -/
def safe_extract_value (line : List Char) : Option (List Char) :=
  if ineqSearch line then none
  else if rangeSearch line && decide ((findallDecimals line).length ≤ 2) then none
  else firstBoundedDecimal line

/-! ## `parse_medical_fields` -/

/-- Model of Python `str.splitlines()` (the `\n`, `\r\n` and `\r`
terminators; a trailing terminator produces no extra line). -/
def splitlinesAux (acc : List Char) : List Char → List (List Char)
  | [] => if acc.isEmpty then [] else [acc.reverse]
  | '\r' :: '\n' :: rest => acc.reverse :: splitlinesAux [] rest
  | '\r' :: rest => acc.reverse :: splitlinesAux [] rest
  | '\n' :: rest => acc.reverse :: splitlinesAux [] rest
  | c :: rest => splitlinesAux (c :: acc) rest

def splitlines (text : List Char) : List (List Char) := splitlinesAux [] text

/-- Model of Python substring containment `needle in hay`. -/
def containsSub (needle : List Char) : List Char → Bool
  | [] => needle.isEmpty
  | c :: cs => needle.isPrefixOf (c :: cs) || containsSub needle cs

/-- The `fields` keyword table of `parse_medical_fields`, in Python
dict insertion order. -/
def fieldsTable : List (String × List (List Char)) :=
  [("hemoglobin", ["hemoglobin".toList]),
   ("wbc_count", ["wbc".toList]),
   ("rbc_count", ["rbc".toList]),
   ("platelet_count", ["platelet".toList]),
   ("esr", ["esr".toList]),
   ("glucose", ["glucose".toList]),
   ("creatinine", ["creatinine".toList]),
   ("uric_acid", ["uric acid".toList]),
   ("vitamin_d", ["vitamin d".toList])]

def keywordHit (kws : List (List Char)) (ll : List Char) : Bool :=
  kws.any (fun k => containsSub k ll)

/-- One iteration of the inner `for key, keywords in fields.items()`
loop, on an already lower-cased line `ll`: insert `(key, value)` when a
keyword matches, the extracted value is truthy and the key is absent. -/
def lineStep (ll : List Char) (results : List (String × List Char))
    (entry : String × List (List Char)) : List (String × List Char) :=
  if keywordHit entry.2 ll then
    match safe_extract_value ll with
    | some v =>
      if !v.isEmpty && (results.lookup entry.1).isNone then results ++ [(entry.1, v)]
      else results
    | none => results
  else results

/-- Source: for each line, lower-case it, then try every field of the
keyword table; a Python dict in insertion order is modelled by an
association list extended at the back. -/
def parse_medical_fields (text : List Char) : List (String × List Char) :=
  (splitlines text).foldl
    (fun results line => fieldsTable.foldl (lineStep (line.map Char.toLower)) results) []

/-! Spec-side reformulation used to state the first-match-wins claim. -/

/-- Left-biased choice on options. -/
def orO {a : Type} : Option a → Option a → Option a
  | some v, _ => some v
  | none, b => b

/-- The value a single already lower-cased line contributes to a field
with keyword list `kws`: the extracted value when some keyword occurs in
the line and extraction yields a truthy (non-empty) value. -/
def lineYieldLL (kws : List (List Char)) (ll : List Char) : Option (List Char) :=
  if keywordHit kws ll then
    match safe_extract_value ll with
    | some v => if v.isEmpty then none else some v
    | none => none
  else none

/-- The value retained for a field, per the spec: the yield of the first
line (in scan order) that produces a confident value. -/
def firstConfident (kws : List (List Char)) (text : List Char) : Option (List Char) :=
  (splitlines text).findSome? (fun line => lineYieldLL kws (line.map Char.toLower))

/-- The decimal shape `\d{1,3}\.\d{1,2}`: 1-3 integer digits, a dot,
1-2 fraction digits, nothing else. -/
def decShape (v : List Char) : Bool :=
  let d := v.takeWhile isDigitChar
  (decide (1 ≤ d.length) && decide (d.length ≤ 3)) &&
    match v.drop d.length with
    | c :: f => c = '.' && f.all isDigitChar && (decide (1 ≤ f.length) && decide (f.length ≤ 2))
    | [] => false

/-! ## External library boundary

The PIL / pytesseract / pdf2image / pdfplumber calls and the clock are
modelled as an environment of oracles; every library call that can
raise returns `Except` with the raised message as the error. -/

/-- A pdfplumber page: its `extract_tables()` result (rows of nullable
cells) and its `extract_text()` result (`None` or a string). -/
structure PDFPage where
  tables : List (List (List (Option (List Char))))
  text : Option (List Char)

structure Env (Img : Type) where
  openImage : List Char → Except (List Char) Img
  convertL : Img → Except (List Char) Img
  medianFilter : Img → Except (List Char) Img
  enhanceContrast : Img → ℚ → Except (List Char) Img
  imageToString : Img → List Char → Except (List Char) (List Char)
  convertFromPath : List Char → Nat → Except (List Char) (List Img)
  pdfplumberOpen : List Char → Except (List Char) (List PDFPage)
  now : Nat → List Char

/-- The fixed tesseract configuration `--psm 6`. -/
def psm6Config : List Char := "--psm 6".toList

/-- `preprocess_image_for_ocr`: grayscale, median filter, contrast 2. -/
def preprocess_image_for_ocr {Img : Type} (env : Env Img) (img : Img) :
    Except (List Char) Img := do
  let i1 ← env.convertL img
  let i2 ← env.medianFilter i1
  env.enhanceContrast i2 2

/-- The body of the `try` block of `extract_text_with_ocr_from_image`. -/
def ocrImageTry {Img : Type} (env : Env Img) (image_path : List Char) :
    Except (List Char) (List Char) := do
  let img ← env.openImage image_path
  let p ← preprocess_image_for_ocr env img
  env.imageToString p psm6Config

/-- `extract_text_with_ocr_from_image`: the `except` clause converts any
raised error into an empty string. -/
def extract_text_with_ocr_from_image {Img : Type} (env : Env Img) (image_path : List Char) :
    List Char :=
  match ocrImageTry env image_path with
  | Except.ok t => t
  | Except.error _ => []

/-- The `ocr_text += pytesseract.image_to_string(preprocess(img))` loop. -/
def ocrPagesLoop {Img : Type} (env : Env Img) : List Img → List Char →
    Except (List Char) (List Char)
  | [], acc => Except.ok acc
  | img :: rest, acc => do
    let p ← preprocess_image_for_ocr env img
    let t ← env.imageToString p psm6Config
    ocrPagesLoop env rest (acc ++ t)

/-- The body of the `try` block of `extract_text_with_ocr_from_pdf`:
render every page at 300 DPI, preprocess and recognize each,
concatenating the results. -/
def ocrPdfTry {Img : Type} (env : Env Img) (pdf_path : List Char) :
    Except (List Char) (List Char) := do
  let images ← env.convertFromPath pdf_path 300
  ocrPagesLoop env images []

/-- `extract_text_with_ocr_from_pdf`: the `except` clause converts any
raised error into an empty string. -/
def extract_text_with_ocr_from_pdf {Img : Type} (env : Env Img) (pdf_path : List Char) :
    List Char :=
  match ocrPdfTry env pdf_path with
  | Except.ok t => t
  | Except.error _ => []

/-! ## `extract_text_from_pdf` -/

/-- Render one extracted table:
`"\n".join([" | ".join([cell or "" for cell in row]) for row in table])`. -/
def renderTable (table : List (List (Option (List Char)))) : List Char :=
  List.intercalate ['\n']
    (table.map (fun row => List.intercalate (' ' :: '|' :: [' '])
      (row.map (fun cell => cell.getD []))))

/-- The page loop of the `try` block, accumulating the `texts` list:
when table extraction is requested and the page yields tables, append
every rendered table; otherwise append the page text when truthy. -/
def digitalLoop (ttx : Bool) : List PDFPage → List (List Char) → List (List Char)
  | [], texts => texts
  | p :: ps, texts =>
    if ttx && !p.tables.isEmpty then
      digitalLoop ttx ps (texts ++ p.tables.map renderTable)
    else
      match p.text with
      | some t => if t.isEmpty then digitalLoop ttx ps texts
                  else digitalLoop ttx ps (texts ++ [t])
      | none => digitalLoop ttx ps texts

/-- Spec-side per-page description of the digital stage: the pieces a
single page contributes. -/
def pagePieces (ttx : Bool) (p : PDFPage) : List (List Char) :=
  if ttx && !p.tables.isEmpty then p.tables.map renderTable
  else
    match p.text with
    | some t => if t.isEmpty then [] else [t]
    | none => []

/-- The digital stage of `extract_text_from_pdf`: the pdfplumber `try`
block joins the collected pieces with newlines; the `except` clause
yields an empty string for the whole document. -/
def digital_pdf_text {Img : Type} (env : Env Img) (pdf_path : List Char)
    (try_table_extraction : Bool) : List Char :=
  match env.pdfplumberOpen pdf_path with
  | Except.ok pages => List.intercalate ['\n'] (digitalLoop try_table_extraction pages [])
  | Except.error _ => []

/-- `extract_text_from_pdf`: digital extraction, then OCR fallback when
the result is not meaningful. The meaningfulness call sits outside any
`try`, so a raised division error would propagate (`Except.error`). -/
def extract_text_from_pdf {Img : Type} (env : Env Img) (pdf_path : List Char)
    (try_table_extraction : Bool) : Except Unit (List Char) := do
  let text := digital_pdf_text env pdf_path try_table_extraction
  let meaningful ← is_text_extracted_meaningful text 500 (1/4)
  if meaningful then pure text
  else pure (extract_text_with_ocr_from_pdf env pdf_path)

/-! ## `process_files` -/

def SUPPORTED_IMAGE_EXTENSIONS : List (List Char) :=
  [".png".toList, ".jpg".toList, ".jpeg".toList]

/-- Model of `os.path.splitext(filename)[-1]`: the suffix from the last
dot, unless every character before that dot is itself a dot (a leading
dot starts no extension). -/
def splitextExt (p : List Char) : List Char :=
  let tailLen := (p.reverse.takeWhile (fun c => c ≠ '.')).length
  if tailLen = p.length then []
  else
    let sepIndex := p.length - tailLen - 1
    if (p.take sepIndex).all (fun c => c = '.') then [] else p.drop sepIndex

/-- Model of `os.path.join(input_dir, filename)` for POSIX paths. -/
def pathJoin (d n : List Char) : List Char :=
  if headIsSlash n then n
  else if d.isEmpty then n
  else if d.getLast? = some '/' then d ++ n
  else d ++ '/' :: n
where headIsSlash : List Char → Bool
  | [] => false
  | c :: _ => c = '/'

structure ProcessedDocument where
  filename : List Char
  timestamp : List Char
  raw_text : List Char
  parsed_fields : List (String × List Char)

/-- The directory loop of `process_files`; `k` counts the documents
already built, indexing the `datetime.now()` calls. -/
def process_files_loop {Img : Type} (env : Env Img) (input_dir : List Char) :
    List (List Char) → Nat → Except Unit (List ProcessedDocument)
  | [], _ => Except.ok []
  | f :: fs, k =>
    let ext := (splitextExt f).map Char.toLower
    let file_path := pathJoin input_dir f
    if ext = ".pdf".toList then
      match extract_text_from_pdf env file_path true with
      | Except.ok raw =>
        match process_files_loop env input_dir fs (k + 1) with
        | Except.ok rest =>
          Except.ok ({ filename := f, timestamp := env.now k, raw_text := raw,
                       parsed_fields := parse_medical_fields raw } :: rest)
        | Except.error e => Except.error e
      | Except.error e => Except.error e
    else if SUPPORTED_IMAGE_EXTENSIONS.contains ext then
      let raw := extract_text_with_ocr_from_image env file_path
      match process_files_loop env input_dir fs (k + 1) with
      | Except.ok rest =>
        Except.ok ({ filename := f, timestamp := env.now k, raw_text := raw,
                     parsed_fields := parse_medical_fields raw } :: rest)
      | Except.error e => Except.error e
    else process_files_loop env input_dir fs k

/-- `process_files`: dispatch every directory entry by its lower-cased
extension; `.pdf` goes to the PDF path with table extraction enabled,
supported image extensions go to single-image OCR, anything else is
skipped. -/
def process_files {Img : Type} (env : Env Img) (input_dir : List Char)
    (files : List (List Char)) : Except Unit (List ProcessedDocument) :=
  process_files_loop env input_dir files 0

/-- Whether `process_files` builds a record for a file name. -/
def recognizedExt (f : List Char) : Bool :=
  let ext := (splitextExt f).map Char.toLower
  ext = ".pdf".toList || SUPPORTED_IMAGE_EXTENSIONS.contains ext

/-! ## Concrete environments for witnesses and counterexamples -/

/-- An environment in which every external library call fails. -/
def envFail : Env Unit where
  openImage := fun _ => Except.error []
  convertL := fun _ => Except.error []
  medianFilter := fun _ => Except.error []
  enhanceContrast := fun _ _ => Except.error []
  imageToString := fun _ _ => Except.error []
  convertFromPath := fun _ _ => Except.error []
  pdfplumberOpen := fun _ => Except.error []
  now := fun _ => []

/-- Two concrete pdfplumber pages: one with a table, one with text. -/
def samplePages : List PDFPage :=
  [{ tables := [[[some "1.2".toList, none], [some "x".toList, some []]]],
     text := some "unused".toList },
   { tables := [], text := some "hello".toList }]

/-- An environment whose pdfplumber succeeds with `samplePages` and
whose other calls fail. -/
def envPages : Env Unit :=
  { envFail with pdfplumberOpen := fun _ => Except.ok samplePages }

/-! ## Helper lemmas -/

theorem orO_none {a : Type} (x : Option a) : orO x none = x := by
  cases x <;> rfl

theorem orO_assoc {a : Type} (x y z : Option a) : orO (orO x y) z = orO x (orO y z) := by
  cases x <;> cases y <;> rfl

theorem dropWhile_length_le (p : Char → Bool) (l : List Char) :
    (l.dropWhile p).length ≤ l.length := by
  induction l with
  | nil => simp
  | cons a l ih =>
    rw [List.dropWhile_cons]
    split
    · exact Nat.le_trans ih (Nat.le_succ _)
    · simp

theorem pyStrip_length_le (l : List Char) : (pyStrip l).length ≤ l.length := by
  unfold pyStrip
  calc ((l.dropWhile isSpaceChar).reverse.dropWhile isSpaceChar).reverse.length
      = ((l.dropWhile isSpaceChar).reverse.dropWhile isSpaceChar).length :=
        List.length_reverse _
    _ ≤ (l.dropWhile isSpaceChar).reverse.length := dropWhile_length_le _ _
    _ = (l.dropWhile isSpaceChar).length := List.length_reverse _
    _ ≤ l.length := dropWhile_length_le _ _

/-- The meaningfulness check never reaches the division by zero: it is
equal to the plain boolean conjunction of the two tests. -/
theorem meaningful_eq_ok (text : List Char) (threshold : Nat) (ratio : ℚ) :
    is_text_extracted_meaningful text threshold ratio
      = Except.ok (decide ((pyStrip text).length > threshold)
          && decide (ratio < (alnumCount text : ℚ) / (text.length : ℚ))) := by
  unfold is_text_extracted_meaningful
  by_cases h : (pyStrip text).length > threshold
  · have hlen : text.length ≠ 0 := by
      have := pyStrip_length_le text
      omega
    simp [h, hlen]
  · simp [h]

theorem meaningful_ok (text : List Char) (threshold : Nat) (ratio : ℚ) :
    ∃ b, is_text_extracted_meaningful text threshold ratio = Except.ok b := by
  rw [meaningful_eq_ok]
  exact ⟨_, rfl⟩

/-! ## Claim C4 -/

/-- C4: `is_text_extracted_meaningful text threshold ratio` returns true
iff the trimmed length exceeds the threshold and the alphanumeric count
divided by the total untrimmed length exceeds the ratio; consequently,
any text whose length is at most the threshold yields false. -/
theorem c4_meaningful_characterization (text : List Char) (threshold : Nat) (ratio : ℚ) :
    (is_text_extracted_meaningful text threshold ratio = Except.ok true ↔
      (threshold < (pyStrip text).length
        ∧ ratio < (alnumCount text : ℚ) / (text.length : ℚ)))
    ∧ (text.length ≤ threshold →
        is_text_extracted_meaningful text threshold ratio = Except.ok false) := by
  constructor
  · rw [meaningful_eq_ok]
    constructor
    · intro h
      have hb := Except.ok.inj h
      rw [Bool.and_eq_true, decide_eq_true_iff, decide_eq_true_iff] at hb
      exact hb
    · intro h
      have : (decide ((pyStrip text).length > threshold)
          && decide (ratio < (alnumCount text : ℚ) / (text.length : ℚ))) = true := by
        rw [Bool.and_eq_true, decide_eq_true_iff, decide_eq_true_iff]
        exact h
      rw [this]
  · intro h
    rw [meaningful_eq_ok]
    have hs : ¬ ((pyStrip text).length > threshold) := by
      have := pyStrip_length_le text
      omega
    simp [hs]

/-- Witness for C4 at a concrete short text. -/
theorem c4_meaningful_characterization_witness :
    is_text_extracted_meaningful "abc".toList 500 (1/4) = Except.ok false :=
  (c4_meaningful_characterization "abc".toList 500 (1/4)).2 (by decide)

/-! ## Claim C5 -/

/-- C5: on input that is empty after trimming (in particular the empty
string) the meaningfulness check returns false, and for no input does it
reach the division by zero (it never raises). -/
theorem c5_empty_no_div_by_zero (text : List Char) (threshold : Nat) (ratio : ℚ) :
    (pyStrip text = [] → is_text_extracted_meaningful text threshold ratio = Except.ok false)
    ∧ is_text_extracted_meaningful text threshold ratio ≠ Except.error () := by
  rw [meaningful_eq_ok]
  constructor
  · intro h
    have : ¬ ((pyStrip text).length > threshold) := by
      rw [h]
      simp
    simp [this]
  · intro h
    cases h

/-- Witness for C5 at the empty string. -/
theorem c5_empty_no_div_by_zero_witness :
    is_text_extracted_meaningful [] 500 (1/4) = Except.ok false
    ∧ is_text_extracted_meaningful [] 500 (1/4) ≠ Except.error () :=
  ⟨(c5_empty_no_div_by_zero [] 500 (1/4)).1 rfl, (c5_empty_no_div_by_zero [] 500 (1/4)).2⟩

/-! ## Claim C2 -/

/-- C2: any line containing the inequality pattern `[<>]=?\s*\d` is
rejected outright by `safe_extract_value`, whatever else it holds. -/
theorem c2_inequality_rejected (line : List Char) (h : ineqSearch line = true) :
    safe_extract_value line = none := by
  simp [safe_extract_value, h]

/-- Witness for C2 on the spec's example line. -/
theorem c2_inequality_rejected_witness :
    ineqSearch "WBC <4.0".toList = true ∧ safe_extract_value "WBC <4.0".toList = none :=
  ⟨by decide, c2_inequality_rejected "WBC <4.0".toList (by decide)⟩

/-! ## Claim C1 -/

/-- C1 is false as stated: on a line with three or more decimal numbers
the first decimal match is not always returned, because the inequality
check runs first. This line holds four decimal numbers, yet
`safe_extract_value` returns none. -/
theorem c1_counterexample :
    3 ≤ (findallDecimals "13.8 (11.5 - 16.5) <9.0".toList).length
    ∧ ineqSearch "13.8 (11.5 - 16.5) <9.0".toList = true
    ∧ safe_extract_value "13.8 (11.5 - 16.5) <9.0".toList = none := by
  decide

/-- C1 (amended): a line holding a `D.DD - D.DD` range and at most two
decimal numbers yields none; a line holding three or more decimal
numbers and no inequality pattern is not range-rejected, and the first
word-bounded decimal match (if any) is returned. -/
theorem c1_range_rejection (line : List Char) :
    (rangeSearch line = true ∧ (findallDecimals line).length ≤ 2 →
      safe_extract_value line = none)
    ∧ (3 ≤ (findallDecimals line).length ∧ ineqSearch line = false →
      safe_extract_value line = firstBoundedDecimal line) := by
  constructor
  · rintro ⟨h1, h2⟩
    by_cases hi : ineqSearch line = true
    · simp [safe_extract_value, hi]
    · simp [safe_extract_value, hi, h1, h2]
  · rintro ⟨h3, hi⟩
    have h2 : decide ((findallDecimals line).length ≤ 2) = false := by
      rw [decide_eq_false_iff_not]
      omega
    simp [safe_extract_value, hi, h2]

/-- Witness for C1 (amended) on the spec's two example lines: the pure
range is rejected, the three-number line yields its first bounded value. -/
theorem c1_range_rejection_witness :
    safe_extract_value "3.5 - 7.2".toList = none
    ∧ safe_extract_value "Hemoglobin: 13.8 (11.5 - 16.5)".toList = some "13.8".toList := by
  constructor
  · exact (c1_range_rejection "3.5 - 7.2".toList).1 (by decide)
  · have h := (c1_range_rejection "Hemoglobin: 13.8 (11.5 - 16.5)".toList).2 (by decide)
    rw [h]
    decide

/-! ## Claim C6 -/

/-- C6: the two OCR wrappers never propagate an engine error: any error
raised inside the `try` body becomes an empty-string result, and a
successful run returns its text unchanged. -/
theorem c6_ocr_never_raises {Img : Type} (env : Env Img) (path : List Char) :
    (∀ e, ocrImageTry env path = Except.error e →
      extract_text_with_ocr_from_image env path = [])
    ∧ (∀ t, ocrImageTry env path = Except.ok t →
      extract_text_with_ocr_from_image env path = t)
    ∧ (∀ e, ocrPdfTry env path = Except.error e →
      extract_text_with_ocr_from_pdf env path = [])
    ∧ (∀ t, ocrPdfTry env path = Except.ok t →
      extract_text_with_ocr_from_pdf env path = t) := by
  refine ⟨?_, ?_, ?_, ?_⟩
  · intro e h
    simp [extract_text_with_ocr_from_image, h]
  · intro t h
    simp [extract_text_with_ocr_from_image, h]
  · intro e h
    simp [extract_text_with_ocr_from_pdf, h]
  · intro t h
    simp [extract_text_with_ocr_from_pdf, h]

/-- Witness for C6 in the all-failing environment: both wrappers degrade
to the empty string. -/
theorem c6_ocr_never_raises_witness :
    extract_text_with_ocr_from_image envFail "scan.jpg".toList = []
    ∧ extract_text_with_ocr_from_pdf envFail "doc.pdf".toList = [] :=
  ⟨(c6_ocr_never_raises envFail "scan.jpg".toList).1 [] rfl,
   (c6_ocr_never_raises envFail "doc.pdf".toList).2.2.1 [] rfl⟩

/-! ## Claim C7 -/

theorem digitalLoop_eq (ttx : Bool) (pages : List PDFPage) :
    ∀ acc, digitalLoop ttx pages acc = acc ++ (pages.map (pagePieces ttx)).flatten := by
  induction pages with
  | nil => intro acc; simp [digitalLoop]
  | cons p ps ih =>
    intro acc
    by_cases h : (ttx && !p.tables.isEmpty) = true
    · simp [digitalLoop, h, pagePieces, ih]
    · cases hpt : p.text with
      | none => simp [digitalLoop, h, pagePieces, hpt, ih]
      | some t =>
        by_cases ht : t.isEmpty = true
        · simp [digitalLoop, h, pagePieces, hpt, ht, ih]
        · simp [digitalLoop, h, pagePieces, hpt, ht, ih]

/-- C7: the digital stage of `extract_text_from_pdf` renders, per page,
either the pipe-delimited tables (when requested and present) or the
non-empty linear text, joins the collected pieces with newlines in page
order, and collapses any pdfplumber failure to an empty string for the
whole document. -/
theorem c7_digital_stage {Img : Type} (env : Env Img) (path : List Char) (ttx : Bool) :
    (∀ pages, env.pdfplumberOpen path = Except.ok pages →
      digital_pdf_text env path ttx
        = List.intercalate ['\n'] ((pages.map (pagePieces ttx)).flatten))
    ∧ (∀ e, env.pdfplumberOpen path = Except.error e →
      digital_pdf_text env path ttx = []) := by
  constructor
  · intro pages h
    simp [digital_pdf_text, h, digitalLoop_eq]
  · intro e h
    simp [digital_pdf_text, h]

/-- Witness for C7: an environment with one table page and one text
page produces the joined rendering, and a failing environment produces
the empty string. -/
theorem c7_digital_stage_witness :
    digital_pdf_text envPages "doc.pdf".toList true = "1.2 | \nx | \nhello".toList
    ∧ digital_pdf_text envFail "doc.pdf".toList true = [] := by
  constructor
  · have h := (c7_digital_stage envPages "doc.pdf".toList true).1 samplePages rfl
    rw [h]
    decide
  · exact (c7_digital_stage envFail "doc.pdf".toList true).2 [] rfl

/-! ## Claim C8 -/

/-- C8 is false as stated: when the digital text is not meaningful the
OCR path runs, but the returned text need not differ from the garbled
digital extraction — in the all-failing environment both are empty, so
the result equals the original digital extraction. -/
theorem c8_counterexample :
    is_text_extracted_meaningful (digital_pdf_text envFail "doc.pdf".toList true) 500 (1/4)
      = Except.ok false
    ∧ extract_text_from_pdf envFail "doc.pdf".toList true
      = Except.ok (digital_pdf_text envFail "doc.pdf".toList true) := by
  decide

/-- C8 (amended): whenever the digital text is judged not meaningful,
`extract_text_from_pdf` returns exactly the OCR re-extraction of the
document (which may coincide with the digital text, e.g. when both are
empty). -/
theorem c8_ocr_fallback {Img : Type} (env : Env Img) (path : List Char) (ttx : Bool)
    (h : is_text_extracted_meaningful (digital_pdf_text env path ttx) 500 (1/4)
      = Except.ok false) :
    extract_text_from_pdf env path ttx
      = Except.ok (extract_text_with_ocr_from_pdf env path) := by
  simp only [extract_text_from_pdf]
  rw [h]
  rfl

/-- Witness for C8 (amended) in the all-failing environment. -/
theorem c8_ocr_fallback_witness :
    extract_text_from_pdf envFail "report.pdf".toList true
      = Except.ok (extract_text_with_ocr_from_pdf envFail "report.pdf".toList) :=
  c8_ocr_fallback envFail "report.pdf".toList true (by decide)

/-! ## Claim C9 -/

theorem extract_pdf_ok {Img : Type} (env : Env Img) (path : List Char) (ttx : Bool) :
    ∃ t, extract_text_from_pdf env path ttx = Except.ok t := by
  obtain ⟨b, hb⟩ := meaningful_ok (digital_pdf_text env path ttx) 500 (1/4)
  simp only [extract_text_from_pdf]
  rw [hb]
  cases b
  · exact ⟨_, rfl⟩
  · exact ⟨_, rfl⟩

theorem process_loop_filenames {Img : Type} (env : Env Img) (dir : List Char) :
    ∀ (files : List (List Char)) (k : Nat),
      ∃ ds, process_files_loop env dir files k = Except.ok ds
        ∧ ds.map ProcessedDocument.filename = files.filter recognizedExt := by
  intro files
  induction files with
  | nil => intro k; exact ⟨[], rfl, rfl⟩
  | cons f fs ih =>
    intro k
    by_cases hpdf : ((splitextExt f).map Char.toLower) = ".pdf".toList
    · obtain ⟨raw, hraw⟩ := extract_pdf_ok env (pathJoin dir f) true
      obtain ⟨ds, hds, hmap⟩ := ih (k + 1)
      have hrec : recognizedExt f = true := by
        simp only [recognizedExt]
        rw [Bool.or_eq_true]
        exact Or.inl (decide_eq_true hpdf)
      refine ⟨{ filename := f, timestamp := env.now k, raw_text := raw,
                parsed_fields := parse_medical_fields raw } :: ds, ?_, ?_⟩
      · simp only [process_files_loop]
        rw [if_pos hpdf, hraw, hds]
      · simp [List.filter_cons, hrec, hmap]
    · by_cases himg : SUPPORTED_IMAGE_EXTENSIONS.contains ((splitextExt f).map Char.toLower) = true
      · obtain ⟨ds, hds, hmap⟩ := ih (k + 1)
        have hrec : recognizedExt f = true := by
          simp only [recognizedExt]
          rw [Bool.or_eq_true]
          exact Or.inr himg
        refine ⟨{ filename := f, timestamp := env.now k,
                  raw_text := extract_text_with_ocr_from_image env (pathJoin dir f),
                  parsed_fields := parse_medical_fields
                    (extract_text_with_ocr_from_image env (pathJoin dir f)) } :: ds, ?_, ?_⟩
        · simp only [process_files_loop]
          rw [if_neg hpdf, if_pos himg, hds]
        · simp [List.filter_cons, hrec, hmap]
      · obtain ⟨ds, hds, hmap⟩ := ih k
        have hrec : recognizedExt f = false := by
          simp only [recognizedExt]
          rw [Bool.or_eq_false_iff]
          exact ⟨decide_eq_false hpdf, Bool.eq_false_iff.mpr himg⟩
        refine ⟨ds, ?_, ?_⟩
        · simp only [process_files_loop]
          rw [if_neg hpdf, if_neg himg]
          exact hds
        · simp [List.filter_cons, hrec, hmap]

/-- C9: `process_files` never fails, produces exactly one record per
file whose (lower-cased) extension is `.pdf`, `.png`, `.jpg` or
`.jpeg`, in listing order, and skips every other entry; in particular a
directory holding one `.pdf`, one `.jpg` and one `.txt` yields exactly
two records. -/
theorem c9_process_files {Img : Type} (env : Env Img) (dir : List Char)
    (files : List (List Char)) :
    Except.map (fun ds => ds.map ProcessedDocument.filename) (process_files env dir files)
      = Except.ok (files.filter recognizedExt)
    ∧ Except.map (fun ds => ds.length)
        (process_files env dir ["report.pdf".toList, "scan.jpg".toList, "notes.txt".toList])
      = Except.ok 2 := by
  constructor
  · obtain ⟨ds, h1, h2⟩ := process_loop_filenames env dir files 0
    unfold process_files
    rw [h1]
    simp [Except.map, h2]
  · obtain ⟨ds, h1, h2⟩ := process_loop_filenames env dir
      ["report.pdf".toList, "scan.jpg".toList, "notes.txt".toList] 0
    unfold process_files
    rw [h1]
    have hflt : (["report.pdf".toList, "scan.jpg".toList, "notes.txt".toList].filter
        recognizedExt) = ["report.pdf".toList, "scan.jpg".toList] := by decide
    rw [hflt] at h2
    have hlen := congrArg List.length h2
    simp only [List.length_map] at hlen
    simp [Except.map, hlen]

/-- Witness for C9 in the all-failing environment: the `.txt` entry is
skipped and the two recognized files each produce one record. -/
theorem c9_process_files_witness :
    Except.map (fun ds => ds.map ProcessedDocument.filename)
      (process_files envFail "data".toList
        ["report.pdf".toList, "scan.jpg".toList, "notes.txt".toList])
      = Except.ok ["report.pdf".toList, "scan.jpg".toList] := by
  have h := (c9_process_files envFail "data".toList
    ["report.pdf".toList, "scan.jpg".toList, "notes.txt".toList]).1
  rw [h]
  decide

/-! ## Claim C3: lookup machinery for the association-list model -/

theorem lookup_append (l1 l2 : List (String × List Char)) (k : String) :
    (l1 ++ l2).lookup k = orO (l1.lookup k) (l2.lookup k) := by
  induction l1 with
  | nil => simp [List.lookup, orO]
  | cons e l1 ih =>
    obtain ⟨a, b⟩ := e
    simp only [List.cons_append, List.lookup]
    cases hka : k == a
    · simpa [hka] using ih
    · simp [hka, orO]

theorem lookup_none_iff (l : List (String × List Char)) (k : String) :
    l.lookup k = none ↔ k ∉ l.map Prod.fst := by
  induction l with
  | nil => simp [List.lookup]
  | cons e l ih =>
    obtain ⟨a, b⟩ := e
    simp only [List.lookup, List.map_cons, List.mem_cons]
    cases hka : k == a
    · have hne : k ≠ a := by
        intro hc
        rw [hc] at hka
        simp at hka
      simp [hne, ih]
    · have heq : k = a := by
        have := hka
        rwa [beq_iff_eq] at this
      simp [heq]

theorem lineStep_lookup_other (ll : List Char) (res : List (String × List Char))
    (e : String × List (List Char)) (k : String) (hk : e.1 ≠ k) :
    (lineStep ll res e).lookup k = res.lookup k := by
  by_cases h1 : keywordHit e.2 ll = true
  · simp only [lineStep, h1, if_true]
    cases hse : safe_extract_value ll with
    | none => rfl
    | some v =>
      by_cases h2 : (!v.isEmpty && (res.lookup e.1).isNone) = true
      · simp only [h2, if_true]
        rw [lookup_append]
        have hk2 : (k == e.1) = false := by
          rw [beq_eq_false_iff_ne]
          exact Ne.symm hk
        simp [List.lookup, hk2, orO_none]
      · simp [h2]
  · simp [lineStep, h1]

theorem lineStep_lookup_self (ll : List Char) (res : List (String × List Char))
    (key : String) (kws : List (List Char)) :
    (lineStep ll res (key, kws)).lookup key = orO (res.lookup key) (lineYieldLL kws ll) := by
  by_cases h1 : keywordHit kws ll = true
  · simp only [lineStep, lineYieldLL, h1, if_true]
    cases hse : safe_extract_value ll with
    | none => simp [orO_none]
    | some v =>
      by_cases hv : v.isEmpty = true
      · simp [hv, orO_none]
      · by_cases hn : (res.lookup key).isNone = true
        · have hnone : res.lookup key = none := by
            cases hres : res.lookup key with
            | none => rfl
            | some w => rw [hres] at hn; simp at hn
          simp only [hv, hn, Bool.not_true, Bool.not_false, Bool.true_and, if_true, if_false]
          rw [lookup_append, hnone]
          simp [List.lookup, orO]
        · have hsome : ∃ w, res.lookup key = some w := by
            cases hres : res.lookup key with
            | none => rw [hres] at hn; simp at hn
            | some w => exact ⟨w, rfl⟩
          obtain ⟨w, hw⟩ := hsome
          simp [hv, hn, hw, orO]
  · simp [lineStep, lineYieldLL, h1, orO_none]

theorem foldl_lineStep_absent (ll : List Char) (k : String) :
    ∀ (T : List (String × List (List Char))) (res : List (String × List Char)),
      k ∉ T.map Prod.fst →
      (T.foldl (lineStep ll) res).lookup k = res.lookup k := by
  intro T
  induction T with
  | nil => intro res _; rfl
  | cons e T ih =>
    intro res hk
    simp only [List.map_cons, List.mem_cons] at hk
    push_neg at hk
    rw [List.foldl_cons, ih _ hk.2, lineStep_lookup_other ll res e k (fun h => hk.1 h.symm)]

theorem foldl_lineStep_mem (ll : List Char) (key : String) (kws : List (List Char)) :
    ∀ (T : List (String × List (List Char))) (res : List (String × List Char)),
      (T.map Prod.fst).Nodup → (key, kws) ∈ T →
      (T.foldl (lineStep ll) res).lookup key = orO (res.lookup key) (lineYieldLL kws ll) := by
  intro T
  induction T with
  | nil => intro res _ h; cases h
  | cons e T ih =>
    intro res hnd hmem
    simp only [List.map_cons, List.nodup_cons] at hnd
    rcases List.mem_cons.mp hmem with heq | hmem2
    · have he : e = (key, kws) := heq.symm
      subst he
      rw [List.foldl_cons, foldl_lineStep_absent ll key T _ hnd.1, lineStep_lookup_self]
    · have hkT : key ∈ T.map Prod.fst := List.mem_map.mpr ⟨(key, kws), hmem2, rfl⟩
      have hne : e.1 ≠ key := fun h => hnd.1 (h ▸ hkT)
      rw [List.foldl_cons, ih _ hnd.2 hmem2, lineStep_lookup_other ll res e key hne]

theorem lines_foldl_lookup (key : String) (kws : List (List Char))
    (hmem : (key, kws) ∈ fieldsTable) :
    ∀ (lines : List (List Char)) (res : List (String × List Char)),
      (lines.foldl
          (fun results line => fieldsTable.foldl (lineStep (line.map Char.toLower)) results)
          res).lookup key
        = orO (res.lookup key)
            (lines.findSome? (fun line => lineYieldLL kws (line.map Char.toLower))) := by
  have hnd : (fieldsTable.map Prod.fst).Nodup := by decide
  intro lines
  induction lines with
  | nil =>
    intro res
    simp [List.findSome?, orO_none]
  | cons line ls ih =>
    intro res
    rw [List.foldl_cons, ih, foldl_lineStep_mem _ key kws _ _ hnd hmem]
    have hfs : (line :: ls).findSome? (fun l2 => lineYieldLL kws (l2.map Char.toLower))
        = orO (lineYieldLL kws (line.map Char.toLower))
            (ls.findSome? (fun l2 => lineYieldLL kws (l2.map Char.toLower))) := by
      cases h : lineYieldLL kws (line.map Char.toLower) <;>
        simp [List.findSome?_cons, h, orO]
    rw [hfs, orO_assoc]

theorem lineStep_nodup (ll : List Char) (res : List (String × List Char))
    (e : String × List (List Char)) (h : (res.map Prod.fst).Nodup) :
    ((lineStep ll res e).map Prod.fst).Nodup := by
  by_cases h1 : keywordHit e.2 ll = true
  · simp only [lineStep, h1, if_true]
    cases hse : safe_extract_value ll with
    | none => exact h
    | some v =>
      by_cases h2 : (!v.isEmpty && (res.lookup e.1).isNone) = true
      · simp only [h2, if_true]
        have hr : (res.lookup e.1).isNone = true := by
          rw [Bool.and_eq_true] at h2
          exact h2.2
        have hn : res.lookup e.1 = none := by
          cases hres : res.lookup e.1 with
          | none => rfl
          | some w => rw [hres] at hr; simp at hr
        have hnotin : e.1 ∉ res.map Prod.fst := (lookup_none_iff res e.1).mp hn
        rw [List.map_append]
        simp only [List.map_cons, List.map_nil]
        rw [List.nodup_append]
        refine ⟨h, List.nodup_singleton _, ?_⟩
        intro a ha hb
        rw [List.mem_singleton] at hb
        subst hb
        exact hnotin ha
      · simp only [h2, if_false]
        exact h
  · simp only [lineStep, h1, if_false]
    exact h

theorem foldl_lineStep_nodup (ll : List Char) :
    ∀ (T : List (String × List (List Char))) (res : List (String × List Char)),
      (res.map Prod.fst).Nodup →
      ((T.foldl (lineStep ll) res).map Prod.fst).Nodup := by
  intro T
  induction T with
  | nil => intro res h; exact h
  | cons e T ih =>
    intro res h
    rw [List.foldl_cons]
    exact ih _ (lineStep_nodup ll res e h)

theorem lines_foldl_nodup :
    ∀ (lines : List (List Char)) (res : List (String × List Char)),
      (res.map Prod.fst).Nodup →
      ((lines.foldl
          (fun results line => fieldsTable.foldl (lineStep (line.map Char.toLower)) results)
          res).map Prod.fst).Nodup := by
  intro lines
  induction lines with
  | nil => intro res h; exact h
  | cons line ls ih =>
    intro res h
    rw [List.foldl_cons]
    exact ih _ (foldl_lineStep_nodup _ _ _ h)

/-- C3: `parse_medical_fields` holds at most one value per key, and the
value retained for each field of the keyword table is the one produced
by the first line (in scan order) that matches one of its keywords and
yields a confident value; later matching lines never replace it. -/
theorem c3_first_match_wins (text : List Char) :
    ((parse_medical_fields text).map Prod.fst).Nodup
    ∧ ∀ key kws, (key, kws) ∈ fieldsTable →
        (parse_medical_fields text).lookup key = firstConfident kws text := by
  constructor
  · unfold parse_medical_fields
    exact lines_foldl_nodup _ [] (by simp)
  · intro key kws hmem
    unfold parse_medical_fields firstConfident
    rw [lines_foldl_lookup key kws hmem]
    rfl

/-- Witness for C3: "hemoglobin" appears on two lines with different
values; the first line's value is retained. -/
theorem c3_first_match_wins_witness :
    (parse_medical_fields "hemoglobin 13.8\nhemoglobin 9.9".toList).lookup "hemoglobin"
      = some "13.8".toList := by
  have h := (c3_first_match_wins "hemoglobin 13.8\nhemoglobin 9.9".toList).2 "hemoglobin"
    ["hemoglobin".toList] (by decide)
  rw [h]
  decide

/-! ## Claim C10 -/

theorem takeWhile_append_all (p : Char → Bool) :
    ∀ (d s : List Char), (∀ c ∈ d, p c = true) →
      (d ++ s).takeWhile p = d ++ s.takeWhile p := by
  intro d
  induction d with
  | nil => intro s _; rfl
  | cons a d ih =>
    intro s h
    have ha : p a = true := h a (by simp)
    simp only [List.cons_append, List.takeWhile_cons, ha, if_true]
    rw [ih s (fun c hc => h c (by simp [hc]))]

theorem decShape_of_parts (d f : List Char) (hd : ∀ c ∈ d, isDigitChar c = true)
    (hf : ∀ c ∈ f, isDigitChar c = true) (hd1 : 1 ≤ d.length) (hd3 : d.length ≤ 3)
    (hf1 : 1 ≤ f.length) (hf2 : f.length ≤ 2) :
    decShape (d ++ '.' :: f) = true := by
  have hdotdig : isDigitChar '.' = false := by decide
  have htake : (d ++ '.' :: f).takeWhile isDigitChar = d := by
    rw [takeWhile_append_all isDigitChar d ('.' :: f) hd]
    simp [List.takeWhile_cons, hdotdig]
  have hdrop : (d ++ '.' :: f).drop d.length = '.' :: f := List.drop_left d ('.' :: f)
  simp only [decShape, htake, hdrop]
  have hall : f.all isDigitChar = true := List.all_eq_true.mpr hf
  simp [hall, hd1, hd3, hf1, hf2]

theorem matchCore_shape (l m r : List Char) (h : matchCore l = some (m, r)) :
    decShape m = true := by
  simp only [matchCore] at h
  split at h
  · cases h
  · rename_i hcond
    rw [Bool.or_eq_true] at hcond
    push_neg at hcond
    split at h
    · cases h
    · rename_i c rest2 hdrop
      split at h
      · rename_i hdot
        split at h
        · cases h
        · rename_i hflen
          rw [Option.some.injEq, Prod.mk.injEq] at h
          obtain ⟨hm, _⟩ := h
          subst hdot
          rw [← hm]
          apply decShape_of_parts
          · intro x hx
            exact List.mem_takeWhile_imp hx
          · intro x hx
            exact List.mem_takeWhile_imp (List.mem_of_mem_take hx)
          · have h0 : ¬ (l.takeWhile isDigitChar).length = 0 := by
              intro hz
              exact hcond.1 (decide_eq_true hz)
            omega
          · have h3 : ¬ ((3:Nat) < (l.takeWhile isDigitChar).length) := by
              intro hz
              exact hcond.2 (decide_eq_true hz)
            omega
          · rw [List.length_take]
            omega
          · rw [List.length_take]
            omega
      · cases h

theorem boundedCoreAt_shape (l m : List Char) (h : boundedCoreAt l = some m) :
    decShape m = true := by
  simp only [boundedCoreAt] at h
  split at h
  · rename_i m2 rest hmc
    split at h
    · cases h
    · rw [Option.some.injEq] at h
      subst h
      exact matchCore_shape l m2 rest hmc
  · cases h

theorem searchBounded_shape :
    ∀ (l : List Char) (prev : Option Char) (m : List Char),
      searchBoundedAux prev l = some m → decShape m = true := by
  intro l
  induction l with
  | nil => intro prev m h; cases h
  | cons c cs ih =>
    intro prev m h
    simp only [searchBoundedAux] at h
    split at h
    · rename_i m2 hm2
      rw [Option.some.injEq] at h
      subst h
      by_cases hp : prevOk prev = true
      · rw [if_pos hp] at hm2
        exact boundedCoreAt_shape (c :: cs) m2 hm2
      · rw [if_neg hp] at hm2
        cases hm2
    · exact ih (some c) m h

theorem safe_extract_shape (line v : List Char) (h : safe_extract_value line = some v) :
    decShape v = true := by
  simp only [safe_extract_value] at h
  split at h
  · cases h
  · split at h
    · cases h
    · exact searchBounded_shape line none v h

theorem lines_foldl_lookup_absent (key : String) (hk : key ∉ fieldsTable.map Prod.fst) :
    ∀ (lines : List (List Char)) (res : List (String × List Char)),
      (lines.foldl
          (fun results line => fieldsTable.foldl (lineStep (line.map Char.toLower)) results)
          res).lookup key = res.lookup key := by
  intro lines
  induction lines with
  | nil => intro res; rfl
  | cons line ls ih =>
    intro res
    rw [List.foldl_cons, ih, foldl_lineStep_absent _ key fieldsTable _ hk]

/-- C10: every value stored by `parse_medical_fields` has the decimal
shape 1-3 integer digits, a dot, 1-2 fraction digits; lines whose
numeric tokens lack that shape (pure integers in particular) contribute
no value. -/
theorem c10_values_decimal_shape (text : List Char) (key : String) (v : List Char)
    (h : (parse_medical_fields text).lookup key = some v) : decShape v = true := by
  by_cases hk : key ∈ fieldsTable.map Prod.fst
  · obtain ⟨e, he, hfst⟩ := List.mem_map.mp hk
    have hmem : (key, e.2) ∈ fieldsTable := by
      have hpair : (key, e.2) = e := by
        rw [← hfst]
      rw [hpair]
      exact he
    have hc : (parse_medical_fields text).lookup key = firstConfident e.2 text := by
      unfold parse_medical_fields firstConfident
      rw [lines_foldl_lookup key e.2 hmem]
      rfl
    rw [hc] at h
    unfold firstConfident at h
    obtain ⟨line, hline, hyield⟩ := List.exists_of_findSome?_eq_some h
    simp only [lineYieldLL] at hyield
    split at hyield
    · split at hyield
      · rename_i v2 hse
        split at hyield
        · cases hyield
        · rw [Option.some.injEq] at hyield
          subst hyield
          exact safe_extract_shape _ v2 hse
      · cases hyield
    · cases hyield
  · exfalso
    have hnone : (parse_medical_fields text).lookup key = none := by
      unfold parse_medical_fields
      rw [lines_foldl_lookup_absent key hk]
      rfl
    rw [hnone] at h
    cases h

/-- Witness for C10: the stored glucose value has the decimal shape,
and a pure-integer platelet line stores nothing. -/
theorem c10_values_decimal_shape_witness :
    decShape "98.5".toList = true
    ∧ (parse_medical_fields "Platelet count: 250000".toList).lookup "platelet_count" = none :=
  ⟨c10_values_decimal_shape "glucose 98.5".toList "glucose" "98.5".toList (by decide),
   by decide⟩
